import Mathlib

/-!
Verification development for the `@fimbul-works/observable` library
(`src/signal.ts`, `src/value.ts`, `src/map.ts` / `unnamed/part_003`,
`src/event-emitter.ts`).

The embedding mirrors the TypeScript source:

* `JSVal` models the JavaScript values the containers store, with distinct
  representations of `undefined`, `null`, `NaN` and the two signed zeros so
  that the three equality relations of the source can be told apart:
  `jsEq` models strict equality `===` (`NaN` unequal to itself, `0 === -0`),
  `jsIs` models `Object.is` (structural identity: `NaN` equal to itself,
  `0` distinct from `-0`), and `svz` models `SameValueZero`, the relation a
  JavaScript `Map`/`Set` uses for its keys.

* A `Signal`'s handler collections (`#handlers`, `#onceHandlers`,
  `#errorHandlers`) are insertion-ordered duplicate-free lists of handler
  identities (JavaScript `Set`s keyed by function identity).  A handler's
  body is abstracted by a `Behavior`: the subscription mutations it performs
  (`acts`), an optional synchronous re-entrant emission on the same signal
  (`reemit`, run at bounded depth `fuel`; at depth 0 a re-emission is
  dropped, which models a handler that guards itself against unbounded
  recursion), and how it finishes (`Outcome`: return a plain value, return
  an awaitable that later resolves or rejects, or throw synchronously).

* `runPersistentF` models the first loop of `Signal.emit`/`emitAsync`: a
  live iteration over `#handlers.values()`, so a handler deleted before
  being reached is skipped.  `runOnceF` models the second loop: iteration
  over the `Array.from(#onceHandlers.values())` snapshot, so every snapshot
  member is invoked unconditionally and deleted right after its invocation
  (also when it throws).  `handlerCount++` sits after `fn(data)` in the
  source, hence `countInc` adds nothing for a synchronous throw.

The JavaScript return value of `emit` is the `count` field of `PassResult`;
the remaining fields record the observable trace of the call (which handler
was invoked with which payload, which awaitables were produced, how many
errors were routed).
-/

/-- A JavaScript value, with `NaN`, `-0`, `undefined` and `null` kept
distinct so that `===`, `Object.is` and `SameValueZero` can be modelled
faithfully.  `obj` is an object reference identified by an id. -/
inductive JSVal where
  | undef
  | null
  | boolv (b : Bool)
  | num (n : Int)
  | negZero
  | nan
  | str (s : String)
  | obj (id : Nat)
deriving DecidableEq, Repr

/-- Strict equality `===`: `NaN` is unequal to everything (itself included),
`0 === -0` holds, everything else is structural. -/
def jsEq : JSVal → JSVal → Bool
  | JSVal.nan, _ => false
  | _, JSVal.nan => false
  | JSVal.negZero, JSVal.negZero => true
  | JSVal.negZero, JSVal.num n => n == 0
  | JSVal.num n, JSVal.negZero => n == 0
  | a, b => a == b

/-- `Object.is`: structural identity of the encoding (`NaN` equal to itself,
`0` and `-0` distinct). -/
def jsIs (a b : JSVal) : Bool := a == b

/-- `SameValueZero`, the key equality of JavaScript `Map`/`Set`: like
`Object.is` but with the two zeros identified. -/
def svz (a b : JSVal) : Bool :=
  a == b || (a == JSVal.negZero && b == JSVal.num 0) ||
    (a == JSVal.num 0 && b == JSVal.negZero)

/-- `String(v)` as used in the error messages of the source. -/
def jsString : JSVal → String
  | JSVal.undef => "undefined"
  | JSVal.null => "null"
  | JSVal.boolv b => if b then "true" else "false"
  | JSVal.num n => toString n
  | JSVal.negZero => "0"
  | JSVal.nan => "NaN"
  | JSVal.str s => s
  | JSVal.obj _ => "[object Object]"

/-- A subscription mutation a handler body may perform: invoking the cleanup
returned by `connect` (or `disconnect(fn)`) removes from `#handlers`;
invoking the cleanup returned by `once` removes from `#onceHandlers`. -/
inductive Unsub where
  | removePersistent (id : Nat)
  | removeOnce (id : Nat)
deriving DecidableEq, Repr

/-- How a handler invocation finishes: return a non-awaitable, return an
awaitable that later resolves (`promise true`) or rejects
(`promise false`), or throw synchronously. -/
inductive Outcome where
  | ret
  | promise (resolves : Bool)
  | throws
deriving DecidableEq, Repr

/-- The abstracted body of a handler: its subscription mutations, an
optional synchronous re-entrant `emit` on the same signal, and its way of
finishing. -/
structure Behavior where
  acts : List Unsub
  reemit : Option JSVal
  outcome : Outcome

/-- The three handler collections of a `Signal`, in insertion order. -/
structure SignalState where
  handlers : List Nat
  onceHandlers : List Nat
  errorHandlers : List Nat
deriving DecidableEq, Repr

/-- Apply one subscription mutation (a `Set.delete`). -/
def applyAction (s : SignalState) : Unsub → SignalState
  | Unsub.removePersistent i =>
      { s with handlers := s.handlers.filter (fun x => decide (x ≠ i)) }
  | Unsub.removeOnce i =>
      { s with onceHandlers := s.onceHandlers.filter (fun x => decide (x ≠ i)) }

/-- Apply the mutations of a handler body in order. -/
def applyActs (s : SignalState) (l : List Unsub) : SignalState :=
  l.foldl applyAction s

/-- Result of one loop (persistent phase or one-shot phase) of an emission:
final state, the `handlerCount` contribution, the invocations this loop
performed (handler id and payload, in order), the awaitables returned by
those invocations (`true` = eventually resolves), the number of synchronous
throws routed to `#handleError`, and every one-shot invocation that happened
anywhere inside the loop, nested re-entrant emissions included. -/
structure PhaseResult where
  state : SignalState
  count : Nat
  invoked : List (Nat × JSVal)
  awaitables : List Bool
  routedErrors : Nat
  allOnce : List (Nat × JSVal)
deriving DecidableEq, Repr

/-- Result of a whole `emit`/`emitAsync` handler pass.  The JavaScript
return value of `emit` is `count`; `invokedP`/`invokedOnce` are the
invocations the call itself performed in its persistent and one-shot loops
(chronologically `invokedP ++ invokedOnce`); `allOnce` additionally contains
the one-shot invocations of nested re-entrant emissions. -/
structure PassResult where
  state : SignalState
  count : Nat
  invokedP : List (Nat × JSVal)
  invokedOnce : List (Nat × JSVal)
  awaitables : List Bool
  routedErrors : Nat
  allOnce : List (Nat × JSVal)
deriving DecidableEq, Repr

/-- `handlerCount++` sits after `fn(data)` in the source, so a synchronous
throw contributes nothing to the returned count. -/
def countInc : Outcome → Nat
  | Outcome.throws => 0
  | _ => 1

/-- The awaitable collected from an invocation, if it returned one. -/
def awaitOf : Outcome → List Bool
  | Outcome.promise p => [p]
  | _ => []

/-- A synchronous throw is routed to `#handleError` at once. -/
def errInc : Outcome → Nat
  | Outcome.throws => 1
  | _ => 0

/-- Run a handler body's side effects against the current state: first its
subscription mutations, then (when present) its synchronous re-entrant
emission, performed by the `nested` continuation.  Returns the state after
the body and the one-shot invocations the nested emission performed. -/
def invokeNested (nested : JSVal → SignalState → PassResult) (b : Behavior)
    (s : SignalState) : SignalState × List (Nat × JSVal) :=
  match b.reemit with
  | none => (applyActs s b.acts, [])
  | some d =>
      ((nested d (applyActs s b.acts)).state,
        (nested d (applyActs s b.acts)).allOnce)

/-- The persistent loop of `emit`/`emitAsync`: live iteration over
`#handlers.values()`, so an element that is no longer in the set when the
iterator reaches it is skipped. -/
def runPersistentF (nested : JSVal → SignalState → PassResult)
    (beh : Nat → JSVal → Behavior) (data : JSVal) :
    List Nat → SignalState → PhaseResult
  | [], s => ⟨s, 0, [], [], 0, []⟩
  | i :: rest, s =>
      if i ∈ s.handlers then
        let b := beh i data
        let ns := invokeNested nested b s
        let r := runPersistentF nested beh data rest ns.1
        ⟨r.state, countInc b.outcome + r.count, (i, data) :: r.invoked,
          awaitOf b.outcome ++ r.awaitables, errInc b.outcome + r.routedErrors,
          ns.2 ++ r.allOnce⟩
      else
        runPersistentF nested beh data rest s

/-- The one-shot loop of `emit`/`emitAsync`: iteration over the
`Array.from(#onceHandlers.values())` snapshot, so every snapshot member is
invoked unconditionally, and deleted from `#onceHandlers` right after its
invocation whether it returned or threw. -/
def runOnceF (nested : JSVal → SignalState → PassResult)
    (beh : Nat → JSVal → Behavior) (data : JSVal) :
    List Nat → SignalState → PhaseResult
  | [], s => ⟨s, 0, [], [], 0, []⟩
  | i :: rest, s =>
      let b := beh i data
      let ns := invokeNested nested b s
      let s2 := { ns.1 with
        onceHandlers := ns.1.onceHandlers.filter (fun x => decide (x ≠ i)) }
      let r := runOnceF nested beh data rest s2
      ⟨r.state, countInc b.outcome + r.count, (i, data) :: r.invoked,
        awaitOf b.outcome ++ r.awaitables, errInc b.outcome + r.routedErrors,
        (i, data) :: (ns.2 ++ r.allOnce)⟩

/-- One full handler pass of `emit`/`emitAsync`: the persistent loop over
the handlers registered at call time, then the one-shot loop over the
snapshot of `#onceHandlers` taken when the second loop starts. -/
def runPassF (nested : JSVal → SignalState → PassResult)
    (beh : Nat → JSVal → Behavior) (data : JSVal) (s : SignalState) :
    PassResult :=
  let rp := runPersistentF nested beh data s.handlers s
  let ro := runOnceF nested beh data rp.state.onceHandlers rp.state
  ⟨ro.state, rp.count + ro.count, rp.invoked, ro.invoked,
    rp.awaitables ++ ro.awaitables, rp.routedErrors + ro.routedErrors,
    rp.allOnce ++ ro.allOnce⟩

/-- The continuation used at re-entrancy depth 0: a further nested emission
is dropped (the handler guards itself against unbounded recursion). -/
def nestedNone : JSVal → SignalState → PassResult :=
  fun _ s => ⟨s, 0, [], [], [], 0, []⟩

/-- A handler pass with re-entrant emissions modelled to depth `fuel`. -/
def runPassN : Nat → (Nat → JSVal → Behavior) → JSVal → SignalState →
    PassResult
  | 0, beh, d, s => runPassF nestedNone beh d s
  | Nat.succ n, beh, d, s => runPassF (runPassN n beh) beh d s

/-- `Signal.emit(data)`: one synchronous handler pass.  The JavaScript
return value is the `count` field. -/
def Signal.emit (fuel : Nat) (beh : Nat → JSVal → Behavior) (data : JSVal)
    (s : SignalState) : PassResult :=
  runPassN fuel beh data s

/-- Whether a promise is eventually resolved or rejected. -/
inductive PromiseOutcome where
  | resolved
  | rejected
deriving DecidableEq, Repr

/-- One error-handler call inside `#handleError`; `errBeh i = true` means
the error handler itself throws. -/
def callErrorHandler (errBeh : Nat → Bool) (i : Nat) : Except Unit Unit :=
  if errBeh i then Except.error () else Except.ok ()

/-- The loop of `#handleError` over the registered error handlers: each call
sits in a `try`/`catch`, a throwing error handler is logged to the console
and iteration continues.  Returns the error handlers that were invoked. -/
def handleErrorLoop (errBeh : Nat → Bool) : List Nat → List Nat
  | [] => []
  | i :: rest =>
      match callErrorHandler errBeh i with
      | Except.ok _ => i :: handleErrorLoop errBeh rest
      | Except.error _ => i :: handleErrorLoop errBeh rest

/-- `Signal.#handleError`: with no error handlers the error goes to
`console.error`; otherwise every error handler is invoked, its own failures
caught.  Every path completes normally. -/
def handleError (errorHandlers : List Nat) (errBeh : Nat → Bool) :
    Except Unit (List Nat) :=
  if errorHandlers.isEmpty then Except.ok []
  else Except.ok (handleErrorLoop errBeh errorHandlers)

/-- `p.catch(this.#handleError.bind(this))`: a resolved promise passes
through; a rejected one runs `#handleError`, and the resulting promise
rejects only if that continuation itself threw. -/
def attachCatch (errorHandlers : List Nat) (errBeh : Nat → Bool)
    (resolves : Bool) : PromiseOutcome :=
  if resolves then PromiseOutcome.resolved
  else
    match handleError errorHandlers errBeh with
    | Except.ok _ => PromiseOutcome.resolved
    | Except.error _ => PromiseOutcome.rejected

/-- `Promise.all`: rejects as soon as one member rejects. -/
def promiseAll : List PromiseOutcome → PromiseOutcome
  | [] => PromiseOutcome.resolved
  | PromiseOutcome.resolved :: rest => promiseAll rest
  | PromiseOutcome.rejected :: _ => PromiseOutcome.rejected

/-- `Signal.emitAsync(data)`: the same handler pass as `emit`, collecting
every awaitable a handler returned with a `.catch(#handleError)` attached,
then `await Promise.all(promises)`.  `Except.error` is a rejection of the
promise returned by `emitAsync` itself; `Except.ok` carries the resolution
value (the handler count) and the awaited, settled collection. -/
def Signal.emitAsync (fuel : Nat) (beh : Nat → JSVal → Behavior)
    (errBeh : Nat → Bool) (data : JSVal) (s : SignalState) :
    Except Unit (Nat × List PromiseOutcome) :=
  let r := runPassN fuel beh data s
  let settled := r.awaitables.map (attachCatch r.state.errorHandlers errBeh)
  match promiseAll settled with
  | PromiseOutcome.resolved => Except.ok (r.count, settled)
  | PromiseOutcome.rejected => Except.error ()

/-- A sequence of emissions on one signal: final state and, per call, the
one-shot invocations (nested ones included) it performed. -/
def runEmits (fuel : Nat) (beh : Nat → JSVal → Behavior) :
    List JSVal → SignalState → SignalState × List (List (Nat × JSVal))
  | [], s => (s, [])
  | d :: rest, s =>
      let r := runPassN fuel beh d s
      let t := runEmits fuel beh rest r.state
      (t.1, r.allOnce :: t.2)

/-- The number of invocations in a log whose handler did not throw
synchronously — exactly the invocations `handlerCount++` counted. -/
def countedInvocations (beh : Nat → JSVal → Behavior)
    (l : List (Nat × JSVal)) : Nat :=
  l.countP (fun p => decide ((beh p.1 p.2).outcome ≠ Outcome.throws))

/-- The property of a nested-emission continuation that it never adds
handlers, only removes them. -/
def Shrinking (nested : JSVal → SignalState → PassResult) : Prop :=
  ∀ d s, (∀ x, x ∈ (nested d s).state.handlers → x ∈ s.handlers) ∧
    (∀ x, x ∈ (nested d s).state.onceHandlers → x ∈ s.onceHandlers)

/-! ### Observable containers

`ObservableMap` (`unnamed/part_003`) stores its entries in a JavaScript
`Map`, modelled as an insertion-ordered association list whose key lookup
uses `SameValueZero`.  The notification side is modelled by the single
argument the container passes to its owned signal's `emit`: `none` means
the mutator returned without calling `emit` at all. -/

/-- The four `CollectionEvent` type tags. -/
inductive EvType where
  | add
  | update
  | delete
  | clear
deriving DecidableEq, Repr

/-- A `CollectionEvent` record.  Fields the source does not set in a given
literal read as `undefined` through property access, so absent fields are
represented by `JSVal.undef`. -/
structure CollectionEvent where
  type : EvType
  key : JSVal
  value : JSVal
  oldValue : JSVal
deriving DecidableEq, Repr

/-- The backing `Map` of an `ObservableMap`, in insertion order. -/
structure MapState where
  entries : List (JSVal × JSVal)
deriving DecidableEq, Repr

/-- `Map.prototype.has`, with `SameValueZero` key equality. -/
def mapHas (es : List (JSVal × JSVal)) (k : JSVal) : Bool :=
  es.any (fun p => svz p.1 k)

/-- `Map.prototype.get`: `none` models the `undefined` returned for an
absent key. -/
def mapGet (es : List (JSVal × JSVal)) (k : JSVal) : Option JSVal :=
  (es.find? (fun p => svz p.1 k)).map (fun p => p.2)

/-- `Map.prototype.set`: overwrite in place (keeping the original key and
position) when the key is present, append otherwise. -/
def mapSet (es : List (JSVal × JSVal)) (k v : JSVal) : List (JSVal × JSVal) :=
  if mapHas es k then es.map (fun p => if svz p.1 k then (p.1, v) else p)
  else es ++ [(k, v)]

/-- `ObservableMap.set(key, value)`: read `exists` and `oldValue` (the raw
`Map.get`, so `undefined` both for an absent key and for a stored
`undefined`), return early when `oldValue !== undefined && oldValue ===
value`, otherwise mutate the backing map first and then emit one
`CollectionEvent` typed `add`/`update`.  The second component is the
argument of that single `emit` call, `none` when no event was emitted. -/
def ObservableMap.set (s : MapState) (k v : JSVal) :
    MapState × Option CollectionEvent :=
  let exists0 := mapHas s.entries k
  let oldValue := (mapGet s.entries k).getD JSVal.undef
  if (!(jsEq oldValue JSVal.undef) && jsEq oldValue v) = true then (s, none)
  else
    (⟨mapSet s.entries k v⟩,
      some ⟨if exists0 then EvType.update else EvType.add, k, v, oldValue⟩)

/-- `ObservableMap.setAsync(key, value)`: the same comparison, mutation and
single event as `set`; only the awaiting of handlers differs. -/
def ObservableMap.setAsync (s : MapState) (k v : JSVal) :
    MapState × Option CollectionEvent :=
  let exists0 := mapHas s.entries k
  let oldValue := (mapGet s.entries k).getD JSVal.undef
  if (!(jsEq oldValue JSVal.undef) && jsEq oldValue v) = true then (s, none)
  else
    (⟨mapSet s.entries k v⟩,
      some ⟨if exists0 then EvType.update else EvType.add, k, v, oldValue⟩)

/-- `ObservableValue.set(newValue)` (`src/value.ts`): compare with
`Object.is`; when different, store the new value and emit it once.  Returns
the stored value after the call and the argument of the single `emit` call
(`none` when nothing was emitted). -/
def ObservableValue.set (cur v : JSVal) : JSVal × Option JSVal :=
  if jsIs cur v = true then (cur, none) else (v, some v)

/-- `ObservableValue.setAsync(newValue)`: same comparison, mutation and
single emission as `set`. -/
def ObservableValue.setAsync (cur v : JSVal) : JSVal × Option JSVal :=
  if jsIs cur v = true then (cur, none) else (v, some v)

/-- Result of a registry mutator: the state after the call, the single
event it emitted (if any), and the message of the error it threw (if any).
A throw happens before any mutation, so `state` is then the input state. -/
structure RegResult where
  state : MapState
  emitted : Option CollectionEvent
  thrown : Option String
deriving DecidableEq, Repr

/-- `ObservableRegistry.register(key, value)` (`src/event-emitter.ts`):
throw `Already registered: ...` when `has(key)`, otherwise behave exactly
as `ObservableMap.set`. -/
def ObservableRegistry.register (s : MapState) (k v : JSVal) : RegResult :=
  if mapHas s.entries k then
    ⟨s, none, some ("Already registered: " ++ jsString k)⟩
  else
    ⟨(ObservableMap.set s k v).1, (ObservableMap.set s k v).2, none⟩

/-- `ObservableRegistry.get(key, throwErrorOnMissing = true)`: read
`super.get(key)` (which yields `undefined` both for an absent key and for a
stored `undefined`) and throw `Not registered: ...` when `value ===
undefined && throwErrorOnMissing`. -/
def ObservableRegistry.get (s : MapState) (k : JSVal)
    (throwErrorOnMissing : Bool) : Except String JSVal :=
  let value := (mapGet s.entries k).getD JSVal.undef
  if (jsEq value JSVal.undef && throwErrorOnMissing) = true then
    Except.error ("Not registered: " ++ jsString k)
  else Except.ok value

/-! ### EventEmitter

`EventEmitter` (`src/event-emitter.ts`) keeps one `Signal` per declared
event name in an `ObservableMap`; the map is modelled as an association
list from event name to `SignalState`.  `on`/`onError` return a cleanup
closure, represented as first-order data interpreted by `runCleanup`. -/

/-- The signal table of an `EventEmitter`. -/
abbrev EEState := List (JSVal × SignalState)

/-- `#signals.get(event)`. -/
def eeLookup (s : EEState) (ev : JSVal) : Option SignalState :=
  ((s.find? (fun p => svz p.1 ev)).map (fun p => p.2))

/-- `Set.prototype.add`: append when absent, keep position when present. -/
def setAdd (l : List Nat) (i : Nat) : List Nat :=
  if i ∈ l then l else l ++ [i]

/-- Replace the signal stored under an event name. -/
def eeUpdate (s : EEState) (ev : JSVal) (f : SignalState → SignalState) :
    EEState :=
  s.map (fun p => if svz p.1 ev then (p.1, f p.2) else p)

/-- The cleanup closure returned by `on`/`onError`: either the do-nothing
`() => {}` returned when the event has no backing signal, or the closure
that deletes the handler from the signal's set. -/
inductive EECleanup where
  | noop
  | removeHandler (ev : JSVal) (id : Nat)
  | removeErrorHandler (ev : JSVal) (id : Nat)
deriving DecidableEq, Repr

/-- `EventEmitter.on(event, fn)`: `signal.connect(fn)` when the event has a
backing signal, otherwise return the do-nothing cleanup without touching
any state. -/
def EventEmitter.on (s : EEState) (ev : JSVal) (fn : Nat) :
    EEState × EECleanup :=
  match eeLookup s ev with
  | some _ =>
      (eeUpdate s ev (fun sig => { sig with handlers := setAdd sig.handlers fn }),
        EECleanup.removeHandler ev fn)
  | none => (s, EECleanup.noop)

/-- `EventEmitter.onError(event, fn)`: `signal.connectError(fn)` when the
event has a backing signal, otherwise the do-nothing cleanup. -/
def EventEmitter.onError (s : EEState) (ev : JSVal) (fn : Nat) :
    EEState × EECleanup :=
  match eeLookup s ev with
  | some _ =>
      (eeUpdate s ev
        (fun sig => { sig with errorHandlers := setAdd sig.errorHandlers fn }),
        EECleanup.removeErrorHandler ev fn)
  | none => (s, EECleanup.noop)

/-- `EventEmitter.emit(event, data)`: run `signal.emit(data)` when the event
has a backing signal, otherwise do nothing; either way return the emitter
(the first component) — the second component is the list of handler
invocations the call performed. -/
def EventEmitter.emit (fuel : Nat) (beh : Nat → JSVal → Behavior)
    (s : EEState) (ev data : JSVal) : EEState × List (Nat × JSVal) :=
  match eeLookup s ev with
  | some sig =>
      (eeUpdate s ev (fun _ => (Signal.emit fuel beh data sig).state),
        (Signal.emit fuel beh data sig).invokedP ++
          (Signal.emit fuel beh data sig).invokedOnce)
  | none => (s, [])

/-- Interpret a cleanup closure against an emitter state. -/
def runCleanup (s : EEState) : EECleanup → EEState
  | EECleanup.noop => s
  | EECleanup.removeHandler ev i =>
      eeUpdate s ev
        (fun sig => { sig with
          handlers := sig.handlers.filter (fun x => decide (x ≠ i)) })
  | EECleanup.removeErrorHandler ev i =>
      eeUpdate s ev
        (fun sig => { sig with
          errorHandlers := sig.errorHandlers.filter (fun x => decide (x ≠ i)) })

/-- `EventEmitter.destroy()`: `disconnect()` every signal, then clear the
signal table — afterwards the table is empty. -/
def EventEmitter.destroy (_s : EEState) : EEState := []

/-! ### Basic lemmas -/

/-- `x === undefined` holds exactly for `undefined` itself. -/
theorem jsEq_undef_iff (x : JSVal) : jsEq x JSVal.undef = true ↔ x = JSVal.undef := by
  cases x <;> simp [jsEq]

/-! ### Monotonicity of the handler collections

Handler bodies only ever *remove* subscriptions in this model, so every
ingredient of a pass shrinks the two handler collections. -/

theorem applyAction_handlers_mem {s : SignalState} {a : Unsub} {x : Nat}
    (h : x ∈ (applyAction s a).handlers) : x ∈ s.handlers := by
  cases a with
  | removePersistent i =>
      simp only [applyAction, List.mem_filter] at h
      exact h.1
  | removeOnce i => exact h

theorem applyAction_once_mem {s : SignalState} {a : Unsub} {x : Nat}
    (h : x ∈ (applyAction s a).onceHandlers) : x ∈ s.onceHandlers := by
  cases a with
  | removePersistent i => exact h
  | removeOnce i =>
      simp only [applyAction, List.mem_filter] at h
      exact h.1

theorem applyActs_handlers_mem {l : List Unsub} :
    ∀ {s : SignalState} {x : Nat}, x ∈ (applyActs s l).handlers →
      x ∈ s.handlers := by
  induction l with
  | nil => intro s x h; exact h
  | cons a rest ih => intro s x h; exact applyAction_handlers_mem (ih h)

theorem applyActs_once_mem {l : List Unsub} :
    ∀ {s : SignalState} {x : Nat}, x ∈ (applyActs s l).onceHandlers →
      x ∈ s.onceHandlers := by
  induction l with
  | nil => intro s x h; exact h
  | cons a rest ih => intro s x h; exact applyAction_once_mem (ih h)

theorem invokeNested_handlers_mem {nested : JSVal → SignalState → PassResult}
    (hn : Shrinking nested) {b : Behavior} {s : SignalState} {x : Nat}
    (h : x ∈ (invokeNested nested b s).1.handlers) : x ∈ s.handlers := by
  cases hr : b.reemit with
  | none =>
      rw [invokeNested, hr] at h
      exact applyActs_handlers_mem h
  | some d =>
      rw [invokeNested, hr] at h
      exact applyActs_handlers_mem ((hn d _).1 x h)

theorem invokeNested_once_mem {nested : JSVal → SignalState → PassResult}
    (hn : Shrinking nested) {b : Behavior} {s : SignalState} {x : Nat}
    (h : x ∈ (invokeNested nested b s).1.onceHandlers) : x ∈ s.onceHandlers := by
  cases hr : b.reemit with
  | none =>
      rw [invokeNested, hr] at h
      exact applyActs_once_mem h
  | some d =>
      rw [invokeNested, hr] at h
      exact applyActs_once_mem ((hn d _).2 x h)

theorem runPersistentF_handlers_mem {nested : JSVal → SignalState → PassResult}
    (hn : Shrinking nested) {beh : Nat → JSVal → Behavior} {d : JSVal} :
    ∀ {l : List Nat} {s : SignalState} {x : Nat},
      x ∈ (runPersistentF nested beh d l s).state.handlers → x ∈ s.handlers := by
  intro l
  induction l with
  | nil => intro s x h; exact h
  | cons i rest ih =>
      intro s x h
      by_cases hm : i ∈ s.handlers
      · rw [runPersistentF, if_pos hm] at h
        exact invokeNested_handlers_mem hn (ih h)
      · rw [runPersistentF, if_neg hm] at h
        exact ih h

theorem runPersistentF_once_mem {nested : JSVal → SignalState → PassResult}
    (hn : Shrinking nested) {beh : Nat → JSVal → Behavior} {d : JSVal} :
    ∀ {l : List Nat} {s : SignalState} {x : Nat},
      x ∈ (runPersistentF nested beh d l s).state.onceHandlers →
        x ∈ s.onceHandlers := by
  intro l
  induction l with
  | nil => intro s x h; exact h
  | cons i rest ih =>
      intro s x h
      by_cases hm : i ∈ s.handlers
      · rw [runPersistentF, if_pos hm] at h
        exact invokeNested_once_mem hn (ih h)
      · rw [runPersistentF, if_neg hm] at h
        exact ih h

theorem runOnceF_handlers_mem {nested : JSVal → SignalState → PassResult}
    (hn : Shrinking nested) {beh : Nat → JSVal → Behavior} {d : JSVal} :
    ∀ {l : List Nat} {s : SignalState} {x : Nat},
      x ∈ (runOnceF nested beh d l s).state.handlers → x ∈ s.handlers := by
  intro l
  induction l with
  | nil => intro s x h; exact h
  | cons i rest ih =>
      intro s x h
      simp only [runOnceF] at h
      have h2 := ih h
      exact invokeNested_handlers_mem hn h2

theorem runOnceF_once_mem {nested : JSVal → SignalState → PassResult}
    (hn : Shrinking nested) {beh : Nat → JSVal → Behavior} {d : JSVal} :
    ∀ {l : List Nat} {s : SignalState} {x : Nat},
      x ∈ (runOnceF nested beh d l s).state.onceHandlers → x ∈ s.onceHandlers := by
  intro l
  induction l with
  | nil => intro s x h; exact h
  | cons i rest ih =>
      intro s x h
      simp only [runOnceF] at h
      have h2 := ih h
      simp only [List.mem_filter] at h2
      exact invokeNested_once_mem hn h2.1

theorem runPassF_handlers_mem {nested : JSVal → SignalState → PassResult}
    (hn : Shrinking nested) {beh : Nat → JSVal → Behavior} {d : JSVal}
    {s : SignalState} {x : Nat}
    (h : x ∈ (runPassF nested beh d s).state.handlers) : x ∈ s.handlers := by
  rw [runPassF] at h
  exact runPersistentF_handlers_mem hn (runOnceF_handlers_mem hn h)

theorem runPassF_once_mem {nested : JSVal → SignalState → PassResult}
    (hn : Shrinking nested) {beh : Nat → JSVal → Behavior} {d : JSVal}
    {s : SignalState} {x : Nat}
    (h : x ∈ (runPassF nested beh d s).state.onceHandlers) :
    x ∈ s.onceHandlers := by
  rw [runPassF] at h
  exact runPersistentF_once_mem hn (runOnceF_once_mem hn h)

theorem shrinking_nestedNone : Shrinking nestedNone := by
  intro d s
  exact ⟨fun x h => h, fun x h => h⟩

theorem shrinking_runPassN (n : Nat) (beh : Nat → JSVal → Behavior) :
    Shrinking (runPassN n beh) := by
  induction n with
  | zero =>
      intro d s
      exact ⟨fun x h => runPassF_handlers_mem shrinking_nestedNone h,
        fun x h => runPassF_once_mem shrinking_nestedNone h⟩
  | succ m ih =>
      intro d s
      exact ⟨fun x h => runPassF_handlers_mem ih h,
        fun x h => runPassF_once_mem ih h⟩

/-- Every modelled re-entrancy depth unfolds to one `runPassF` layer whose
nested continuation only shrinks the handler collections. -/
theorem runPassN_exists_nested (fuel : Nat) (beh : Nat → JSVal → Behavior) :
    ∃ nested, Shrinking nested ∧
      ∀ d s, runPassN fuel beh d s = runPassF nested beh d s := by
  cases fuel with
  | zero => exact ⟨nestedNone, shrinking_nestedNone, fun d s => rfl⟩
  | succ n => exact ⟨runPassN n beh, shrinking_runPassN n beh, fun d s => rfl⟩

/-! ### The one-shot loop invokes exactly its snapshot -/

/-- The one-shot loop iterates an `Array.from` snapshot, so it invokes
exactly the snapshot members, in order, each with the emitted payload. -/
theorem runOnceF_invoked (nested : JSVal → SignalState → PassResult)
    (beh : Nat → JSVal → Behavior) (d : JSVal) :
    ∀ (l : List Nat) (s : SignalState),
      (runOnceF nested beh d l s).invoked = l.map (fun i => (i, d)) := by
  intro l
  induction l with
  | nil => intro s; rfl
  | cons i rest ih =>
      intro s
      rw [runOnceF]
      simp [ih]

/-! ### C1: invocation coverage and order of `emit` -/

/-- When no handler reachable in this pass mutates the subscription sets or
re-emits, the persistent loop leaves the state untouched and invokes
exactly the iterated handlers, in order, each with the payload. -/
theorem runPersistentF_inert (nested : JSVal → SignalState → PassResult)
    {beh : Nat → JSVal → Behavior} {d : JSVal}
    (hb : ∀ i, (beh i d).acts = [] ∧ (beh i d).reemit = none) :
    ∀ (l : List Nat) (s : SignalState), (∀ x ∈ l, x ∈ s.handlers) →
      (runPersistentF nested beh d l s).invoked = l.map (fun i => (i, d)) ∧
        (runPersistentF nested beh d l s).state = s := by
  intro l
  induction l with
  | nil => intro s _; exact ⟨rfl, rfl⟩
  | cons i rest ih =>
      intro s hmem
      have hi : i ∈ s.handlers := hmem i (List.mem_cons_self i rest)
      have hinv : invokeNested nested (beh i d) s = (s, []) := by
        rw [invokeNested, (hb i).2, (hb i).1]
        rfl
      have hrest := ih s (fun x hx => hmem x (List.mem_cons_of_mem i hx))
      rw [runPersistentF, if_pos hi]
      simp [hinv, hrest.1, hrest.2]

/-- C1 counterexample: a signal with persistent handlers `0` and `1`, where
handler `0`'s body invokes the cleanup of handler `1` during the pass.
Handler `1` is registered at call time, yet the pass ends with `1` never
invoked — so `emit` does *not* unconditionally invoke every handler
registered at call time. -/
theorem emit_skips_midpass_unsubscribed_handler :
    1 ∈ (⟨[0, 1], [], []⟩ : SignalState).handlers ∧
      (Signal.emit 0
          (fun i _ => if i = 0 then ⟨[Unsub.removePersistent 1], none, Outcome.ret⟩
            else ⟨[], none, Outcome.ret⟩)
          (JSVal.num 0) ⟨[0, 1], [], []⟩).invokedP = [(0, JSVal.num 0)] ∧
      (Signal.emit 0
          (fun i _ => if i = 0 then ⟨[Unsub.removePersistent 1], none, Outcome.ret⟩
            else ⟨[], none, Outcome.ret⟩)
          (JSVal.num 0) ⟨[0, 1], [], []⟩).invokedOnce = [] := by
  exact ⟨by decide, by decide, by decide⟩

/-- C1 (amended): provided no handler unsubscribes anything or re-emits on
the same signal during the pass, `emit` invokes every handler registered at
call time exactly once with the emitted payload, in subscription order —
even if any of the handlers throw synchronously — and the persistent
handlers are fully iterated (`invokedP`) before any one-shot handler begins
(`invokedOnce`); a handler unsubscribed mid-pass by an earlier handler's
side effect may instead be skipped. -/
theorem emit_invokes_all_handlers_in_order (fuel : Nat)
    (beh : Nat → JSVal → Behavior) (data : JSVal) (s : SignalState)
    (hb : ∀ i, (beh i data).acts = [] ∧ (beh i data).reemit = none) :
    (Signal.emit fuel beh data s).invokedP =
        s.handlers.map (fun i => (i, data)) ∧
      (Signal.emit fuel beh data s).invokedOnce =
        s.onceHandlers.map (fun i => (i, data)) := by
  obtain ⟨nested, -, heq⟩ := runPassN_exists_nested fuel beh
  have hp := runPersistentF_inert nested hb s.handlers s
    (fun x hx => hx)
  constructor
  · show (runPassN fuel beh data s).invokedP = _
    rw [heq, runPassF]
    exact hp.1
  · show (runPassN fuel beh data s).invokedOnce = _
    rw [heq, runPassF]
    show (runOnceF nested beh data
      (runPersistentF nested beh data s.handlers s).state.onceHandlers
      (runPersistentF nested beh data s.handlers s).state).invoked = _
    rw [runOnceF_invoked, hp.2]

/-- C1 witness: two persistent handlers and a one-shot handler, all of which
throw; each is still invoked exactly once, persistent ones first. -/
theorem emit_invokes_all_handlers_in_order_witness :
    (Signal.emit 0 (fun _ _ => ⟨[], none, Outcome.throws⟩) (JSVal.num 7)
        ⟨[4, 5], [6], []⟩).invokedP = [(4, JSVal.num 7), (5, JSVal.num 7)] ∧
      (Signal.emit 0 (fun _ _ => ⟨[], none, Outcome.throws⟩) (JSVal.num 7)
        ⟨[4, 5], [6], []⟩).invokedOnce = [(6, JSVal.num 7)] :=
  emit_invokes_all_handlers_in_order 0 (fun _ _ => ⟨[], none, Outcome.throws⟩)
    (JSVal.num 7) ⟨[4, 5], [6], []⟩ (fun _ => ⟨rfl, rfl⟩)

/-! ### C2: the value returned by `emit` -/

theorem countInc_eq (o : Outcome) :
    countInc o = if decide (o ≠ Outcome.throws) = true then 1 else 0 := by
  cases o <;> rfl

theorem countedInvocations_cons (beh : Nat → JSVal → Behavior)
    (p : Nat × JSVal) (l : List (Nat × JSVal)) :
    countedInvocations beh (p :: l) =
      countInc (beh p.1 p.2).outcome + countedInvocations beh l := by
  rw [countedInvocations, List.countP_cons, countInc_eq, countedInvocations]
  by_cases h : (beh p.1 p.2).outcome = Outcome.throws
  · simp [h]
  · simp [h]
    omega

theorem countedInvocations_append (beh : Nat → JSVal → Behavior)
    (l1 l2 : List (Nat × JSVal)) :
    countedInvocations beh (l1 ++ l2) =
      countedInvocations beh l1 + countedInvocations beh l2 := by
  simp [countedInvocations, List.countP_append]

/-- The persistent loop's `handlerCount` contribution counts exactly its
invocations that did not throw synchronously. -/
theorem runPersistentF_count (nested : JSVal → SignalState → PassResult)
    (beh : Nat → JSVal → Behavior) (d : JSVal) :
    ∀ (l : List Nat) (s : SignalState),
      (runPersistentF nested beh d l s).count =
        countedInvocations beh (runPersistentF nested beh d l s).invoked := by
  intro l
  induction l with
  | nil => intro s; rfl
  | cons i rest ih =>
      intro s
      by_cases hm : i ∈ s.handlers
      · simp [runPersistentF, hm, countedInvocations_cons, ih]
      · simp [runPersistentF, hm, ih s]

/-- The one-shot loop's `handlerCount` contribution counts exactly its
invocations that did not throw synchronously. -/
theorem runOnceF_count (nested : JSVal → SignalState → PassResult)
    (beh : Nat → JSVal → Behavior) (d : JSVal) :
    ∀ (l : List Nat) (s : SignalState),
      (runOnceF nested beh d l s).count =
        countedInvocations beh (runOnceF nested beh d l s).invoked := by
  intro l
  induction l with
  | nil => intro s; rfl
  | cons i rest ih =>
      intro s
      simp [runOnceF, countedInvocations_cons, ih]

/-- C2 counterexample: a signal with a single persistent handler whose
invocation throws synchronously.  One handler is invoked during the call,
yet `emit` returns `0`: `handlerCount++` sits after `fn(data)`, so a
synchronous throw skips the increment. -/
theorem emit_count_excludes_throwing_handler :
    (Signal.emit 0 (fun _ _ => ⟨[], none, Outcome.throws⟩) (JSVal.num 0)
        ⟨[0], [], []⟩).count = 0 ∧
      (Signal.emit 0 (fun _ _ => ⟨[], none, Outcome.throws⟩) (JSVal.num 0)
          ⟨[0], [], []⟩).invokedP.length +
        (Signal.emit 0 (fun _ _ => ⟨[], none, Outcome.throws⟩) (JSVal.num 0)
          ⟨[0], [], []⟩).invokedOnce.length = 1 := by
  exact ⟨by decide, by decide⟩

/-- C2 (amended): `emit` returns the number of handlers the call invoked
(persistent plus one-shot) whose invocation did *not* throw synchronously;
a handler whose returned awaitable later fails asynchronously is still
counted, a handler that throws synchronously is not. -/
theorem emit_count_eq_nonthrowing_invocations (fuel : Nat)
    (beh : Nat → JSVal → Behavior) (d : JSVal) (s : SignalState) :
    (Signal.emit fuel beh d s).count =
      countedInvocations beh
        ((Signal.emit fuel beh d s).invokedP ++
          (Signal.emit fuel beh d s).invokedOnce) := by
  obtain ⟨nested, -, heq⟩ := runPassN_exists_nested fuel beh
  simp only [Signal.emit, heq, runPassF]
  rw [countedInvocations_append, runPersistentF_count, runOnceF_count]

/-! ### C3: `emitAsync` resolution -/

theorem handleError_exists_ok (ehs : List Nat) (ebeh : Nat → Bool) :
    ∃ l, handleError ehs ebeh = Except.ok l := by
  rw [handleError]
  split
  · exact ⟨[], rfl⟩
  · exact ⟨_, rfl⟩

/-- Attaching `.catch(#handleError)` produces a promise that always
resolves: `#handleError` wraps each error handler in its own `try`/`catch`
and therefore completes normally. -/
theorem attachCatch_resolved (ehs : List Nat) (ebeh : Nat → Bool)
    (r : Bool) : attachCatch ehs ebeh r = PromiseOutcome.resolved := by
  cases r with
  | true => rfl
  | false =>
      obtain ⟨l, hl⟩ := handleError_exists_ok ehs ebeh
      rw [attachCatch]
      simp [hl]

theorem promiseAll_resolved {l : List PromiseOutcome}
    (h : ∀ q ∈ l, q = PromiseOutcome.resolved) :
    promiseAll l = PromiseOutcome.resolved := by
  induction l with
  | nil => rfl
  | cons q rest ih =>
      have hq := h q (List.mem_cons_self q rest)
      subst hq
      rw [promiseAll]
      exact ih (fun p hp => h p (List.mem_cons_of_mem _ hp))

/-- C3 counterexample: a signal with a single handler that throws
synchronously.  `emitAsync` resolves with `0` although one handler was
invoked during the call — the resolution value is not the count of invoked
handlers. -/
theorem emitAsync_count_excludes_sync_throw :
    Signal.emitAsync 0 (fun _ _ => ⟨[], none, Outcome.throws⟩) (fun _ => false)
        (JSVal.num 0) ⟨[0], [], []⟩ = Except.ok (0, []) ∧
      (runPassN 0 (fun _ _ => ⟨[], none, Outcome.throws⟩) (JSVal.num 0)
          ⟨[0], [], []⟩).invokedP.length = 1 := by
  exact ⟨rfl, by decide⟩

/-- C3 (amended): `emitAsync` never rejects because of a handler failure —
whatever the handlers and error handlers do (synchronous throws, rejected
awaitables, throwing error handlers), it resolves; the resolution happens
only after `Promise.all` of *every* awaitable returned by a handler during
the call, each with `.catch(#handleError)` attached (and hence settled as
resolved), and the resolution value is the number of invoked handlers whose
invocation did not throw synchronously. -/
theorem emitAsync_resolves_after_all_settled (fuel : Nat)
    (beh : Nat → JSVal → Behavior) (errBeh : Nat → Bool) (data : JSVal)
    (s : SignalState) :
    Signal.emitAsync fuel beh errBeh data s =
        Except.ok ((runPassN fuel beh data s).count,
          (runPassN fuel beh data s).awaitables.map
            (attachCatch (runPassN fuel beh data s).state.errorHandlers errBeh)) ∧
      (runPassN fuel beh data s).count =
        countedInvocations beh
          ((runPassN fuel beh data s).invokedP ++
            (runPassN fuel beh data s).invokedOnce) ∧
      (∀ q ∈ (runPassN fuel beh data s).awaitables.map
          (attachCatch (runPassN fuel beh data s).state.errorHandlers errBeh),
        q = PromiseOutcome.resolved) := by
  have hres : ∀ q ∈ (runPassN fuel beh data s).awaitables.map
      (attachCatch (runPassN fuel beh data s).state.errorHandlers errBeh),
      q = PromiseOutcome.resolved := by
    intro q hq
    obtain ⟨r, -, hr⟩ := List.mem_map.mp hq
    rw [← hr]
    exact attachCatch_resolved _ _ _
  refine ⟨?_, ?_, hres⟩
  · have hall := promiseAll_resolved hres
    simp [Signal.emitAsync, hall]
  · obtain ⟨nested, -, heq⟩ := runPassN_exists_nested fuel beh
    simp only [heq, runPassF]
    rw [countedInvocations_append, runPersistentF_count, runOnceF_count]

/-- C3 witness: a handler whose awaitable rejects and an error handler that
itself throws — `emitAsync` still resolves. -/
theorem emitAsync_resolves_after_all_settled_witness :
    Signal.emitAsync 1 (fun _ _ => ⟨[], none, Outcome.promise false⟩)
        (fun _ => true) (JSVal.num 1) ⟨[1], [2], [3]⟩ =
      Except.ok (2, [PromiseOutcome.resolved, PromiseOutcome.resolved]) :=
  (emitAsync_resolves_after_all_settled 1
      (fun _ _ => ⟨[], none, Outcome.promise false⟩) (fun _ => true)
      (JSVal.num 1) ⟨[1], [2], [3]⟩).1

/-! ### C4: one-shot handlers fire at most once -/

/-- Every member of the one-shot snapshot has been deleted from
`#onceHandlers` by the end of the loop (removal happens right after the
invocation, whether it returned or threw). -/
theorem runOnceF_removes {nested : JSVal → SignalState → PassResult}
    (hn : Shrinking nested) {beh : Nat → JSVal → Behavior} {d : JSVal} :
    ∀ (l : List Nat) (s : SignalState) (x : Nat), x ∈ l →
      x ∉ (runOnceF nested beh d l s).state.onceHandlers := by
  intro l
  induction l with
  | nil => intro s x hx; cases hx
  | cons i rest ih =>
      intro s x hx h
      simp only [runOnceF] at h
      rcases List.mem_cons.mp hx with rfl | hx2
      · have h2 := runOnceF_once_mem hn h
        simp only [List.mem_filter, decide_eq_true_eq] at h2
        exact h2.2 rfl
      · exact ih _ x hx2 h

theorem invokeNested_noreemit {nested : JSVal → SignalState → PassResult}
    {b : Behavior} {s : SignalState} (h : b.reemit = none) :
    invokeNested nested b s = (applyActs s b.acts, []) := by
  rw [invokeNested, h]

/-- When none of the snapshot members re-emits, the one-shot loop's
complete invocation record is exactly its snapshot — handlers elsewhere
(the persistent collection in particular) are unconstrained. -/
theorem runOnceF_allOnce_of_no_reemit {nested : JSVal → SignalState → PassResult}
    {beh : Nat → JSVal → Behavior} {d : JSVal} :
    ∀ (l : List Nat) (s : SignalState),
      (∀ j ∈ l, ∀ d2, (beh j d2).reemit = none) →
      (runOnceF nested beh d l s).allOnce = l.map (fun j => (j, d)) := by
  intro l
  induction l with
  | nil => intro s _; rfl
  | cons j rest ih =>
      intro s h
      simp [runOnceF, invokeNested_noreemit (h j (List.mem_cons_self j rest) d),
        ih _ (fun x hx d2 => h x (List.mem_cons_of_mem j hx) d2)]

theorem applyAction_once_nodup {s : SignalState} {a : Unsub}
    (h : s.onceHandlers.Nodup) : (applyAction s a).onceHandlers.Nodup := by
  cases a with
  | removePersistent i => exact h
  | removeOnce i => exact h.filter _

theorem applyActs_once_nodup {l : List Unsub} :
    ∀ {s : SignalState}, s.onceHandlers.Nodup →
      (applyActs s l).onceHandlers.Nodup := by
  induction l with
  | nil => intro s h; exact h
  | cons a rest ih => intro s h; exact ih (applyAction_once_nodup h)

theorem invokeNested_once_nodup {nested : JSVal → SignalState → PassResult}
    {b : Behavior} {s : SignalState}
    (hND : ∀ d2 s2, s2.onceHandlers.Nodup →
      (nested d2 s2).state.onceHandlers.Nodup)
    (h : s.onceHandlers.Nodup) :
    (invokeNested nested b s).1.onceHandlers.Nodup := by
  cases hr : b.reemit with
  | none =>
      rw [invokeNested, hr]
      exact applyActs_once_nodup h
  | some d2 =>
      rw [invokeNested, hr]
      exact hND d2 _ (applyActs_once_nodup h)

/-- The persistent loop preserves duplicate-freeness of the one-shot
collection: a handler body only filters it, and so (by assumption `hND`)
does a nested emission. -/
theorem runPersistentF_once_nodup {nested : JSVal → SignalState → PassResult}
    {beh : Nat → JSVal → Behavior} {d : JSVal}
    (hND : ∀ d2 s2, s2.onceHandlers.Nodup →
      (nested d2 s2).state.onceHandlers.Nodup) :
    ∀ (l : List Nat) (s : SignalState), s.onceHandlers.Nodup →
      (runPersistentF nested beh d l s).state.onceHandlers.Nodup := by
  intro l
  induction l with
  | nil => intro s h; exact h
  | cons i rest ih =>
      intro s h
      by_cases hm : i ∈ s.handlers
      · rw [runPersistentF, if_pos hm]
        show (runPersistentF nested beh d rest
            (invokeNested nested (beh i d) s).1).state.onceHandlers.Nodup
        exact ih _ (invokeNested_once_nodup hND h)
      · rw [runPersistentF, if_neg hm]
        exact ih _ h

theorem countP_le_one_of_nodup (i : Nat) :
    ∀ (l : List Nat), l.Nodup → l.countP (fun x => x == i) ≤ 1 := by
  intro l
  induction l with
  | nil => intro _; simp
  | cons a rest ih =>
      intro h
      rw [List.countP_cons]
      rcases List.nodup_cons.mp h with ⟨hna, hnr⟩
      by_cases ha : a = i
      · subst ha
        have h0 : rest.countP (fun x => x == a) = 0 :=
          List.countP_eq_zero.mpr (fun x hx hbeq => by
            have hxa : x = a := by simpa using hbeq
            exact hna (hxa ▸ hx))
        simp [h0]
      · have hb : (a == i) = false := by simpa using ha
        simp [hb]
        exact ih hnr

/-- After any complete handler pass the one-shot collection is empty: the
snapshot contains everything present when the one-shot loop starts, every
snapshot member is deleted, and nothing is ever added. -/
theorem runOnceF_final_empty {nested : JSVal → SignalState → PassResult}
    (hn : Shrinking nested) {beh : Nat → JSVal → Behavior} {d : JSVal} :
    ∀ (l : List Nat) (s : SignalState), (∀ x ∈ s.onceHandlers, x ∈ l) →
      (runOnceF nested beh d l s).state.onceHandlers = [] := by
  intro l
  induction l with
  | nil =>
      intro s hs
      exact List.eq_nil_iff_forall_not_mem.mpr
        (fun x hx => (List.not_mem_nil x) (hs x hx))
  | cons i rest ih =>
      intro s hs
      simp only [runOnceF]
      apply ih
      intro x hx
      simp only [List.mem_filter, decide_eq_true_eq] at hx
      have hxs : x ∈ s.onceHandlers := invokeNested_once_mem hn hx.1
      rcases List.mem_cons.mp (hs x hxs) with rfl | h2
      · exact absurd rfl hx.2
      · exact h2

theorem runPassN_once_empty (fuel : Nat) (beh : Nat → JSVal → Behavior)
    (d : JSVal) (s : SignalState) :
    (runPassN fuel beh d s).state.onceHandlers = [] := by
  obtain ⟨nested, hn, heq⟩ := runPassN_exists_nested fuel beh
  rw [heq]
  simp only [runPassF]
  exact runOnceF_final_empty hn _ _ (fun x hx => hx)

theorem countP_le_ind_of_nodup (i : Nat) :
    ∀ (l : List Nat), l.Nodup →
      l.countP (fun x => x == i) ≤ (if i ∈ l then 1 else 0) := by
  intro l hnd
  by_cases hi : i ∈ l
  · rw [if_pos hi]
    exact countP_le_one_of_nodup i l hnd
  · rw [if_neg hi]
    have h0 : l.countP (fun x => x == i) = 0 := by
      apply List.countP_eq_zero.mpr
      intro x hx hbeq
      have hxi : x = i := by simpa using hbeq
      exact hi (hxi ▸ hx)
    omega

/-- The central invariant of the persistent loop: each one-shot
registration is consumed at most once.  The one-shot invocations the loop
performs (all of which come from nested emissions, `allOnce`), plus the
registration still pending afterwards, are bounded by the registration
pending beforehand.  Handler bodies may unsubscribe, throw and re-emit
freely; the nested continuation is only assumed to shrink the collections,
preserve duplicate-freeness, and satisfy the same consumption bound
(`hCB`). -/
theorem runPersistentF_allOnce_bound (S0 : List Nat) (i : Nat)
    {nested : JSVal → SignalState → PassResult}
    {beh : Nat → JSVal → Behavior} {d : JSVal} (hShr : Shrinking nested)
    (hND : ∀ d2 s2, s2.onceHandlers.Nodup →
      (nested d2 s2).state.onceHandlers.Nodup)
    (hCB : ∀ d2 s2, (∀ x ∈ s2.onceHandlers, x ∈ S0) →
      s2.onceHandlers.Nodup →
      (nested d2 s2).allOnce.countP (fun p => p.1 == i) +
          (if i ∈ (nested d2 s2).state.onceHandlers then 1 else 0) ≤
        (if i ∈ s2.onceHandlers then 1 else 0)) :
    ∀ (l : List Nat) (s : SignalState),
      (∀ x ∈ s.onceHandlers, x ∈ S0) → s.onceHandlers.Nodup →
      (runPersistentF nested beh d l s).allOnce.countP (fun p => p.1 == i) +
          (if i ∈ (runPersistentF nested beh d l s).state.onceHandlers
            then 1 else 0) ≤
        (if i ∈ s.onceHandlers then 1 else 0) := by
  intro l
  induction l with
  | nil => intro s _ _; simp [runPersistentF]
  | cons i2 rest ih =>
      intro s hsub hnd
      by_cases hm : i2 ∈ s.handlers
      · rw [runPersistentF, if_pos hm]
        show ((invokeNested nested (beh i2 d) s).2 ++
              (runPersistentF nested beh d rest
                (invokeNested nested (beh i2 d) s).1).allOnce).countP
              (fun p => p.1 == i) +
            (if i ∈ (runPersistentF nested beh d rest
                (invokeNested nested (beh i2 d) s).1).state.onceHandlers
              then 1 else 0) ≤
          (if i ∈ s.onceHandlers then 1 else 0)
        rw [List.countP_append]
        have hmono : (if i ∈ (applyActs s (beh i2 d).acts).onceHandlers
            then 1 else 0) ≤ (if i ∈ s.onceHandlers then 1 else 0) := by
          by_cases h1 : i ∈ (applyActs s (beh i2 d).acts).onceHandlers
          · simp [h1, applyActs_once_mem h1]
          · simp [h1]
        cases hr : (beh i2 d).reemit with
        | none =>
            simp only [invokeNested_noreemit hr, List.countP_nil]
            have hA := ih (applyActs s (beh i2 d).acts)
              (fun x hx => hsub x (applyActs_once_mem hx))
              (applyActs_once_nodup hnd)
            omega
        | some d2 =>
            have hinv : invokeNested nested (beh i2 d) s =
                ((nested d2 (applyActs s (beh i2 d).acts)).state,
                  (nested d2 (applyActs s (beh i2 d).acts)).allOnce) := by
              rw [invokeNested, hr]
            simp only [hinv]
            have hsub1 : ∀ x ∈ (applyActs s (beh i2 d).acts).onceHandlers,
                x ∈ S0 := fun x hx => hsub x (applyActs_once_mem hx)
            have hnd1 : (applyActs s (beh i2 d).acts).onceHandlers.Nodup :=
              applyActs_once_nodup hnd
            have hB := hCB d2 (applyActs s (beh i2 d).acts) hsub1 hnd1
            have hsub2 : ∀ x ∈ (nested d2
                (applyActs s (beh i2 d).acts)).state.onceHandlers, x ∈ S0 :=
              fun x hx => hsub1 x ((hShr d2 _).2 x hx)
            have hnd2 := hND d2 _ hnd1
            have hA := ih (nested d2 (applyActs s (beh i2 d).acts)).state
              hsub2 hnd2
            omega
      · rw [runPersistentF, if_neg hm]
        exact ih s hsub hnd

/-- One whole handler pass fires each pending one-shot registration at most
once, provided no handler of the one-shot collection (tracked by the
superset `S0`) re-emits; persistent handlers may re-emit freely, their
nested passes being accounted for by the consumption bound. -/
theorem runPassF_allOnce_bound (S0 : List Nat) (i : Nat)
    {nested : JSVal → SignalState → PassResult}
    {beh : Nat → JSVal → Behavior} {d : JSVal} (hShr : Shrinking nested)
    (hND : ∀ d2 s2, s2.onceHandlers.Nodup →
      (nested d2 s2).state.onceHandlers.Nodup)
    (hCB : ∀ d2 s2, (∀ x ∈ s2.onceHandlers, x ∈ S0) →
      s2.onceHandlers.Nodup →
      (nested d2 s2).allOnce.countP (fun p => p.1 == i) +
          (if i ∈ (nested d2 s2).state.onceHandlers then 1 else 0) ≤
        (if i ∈ s2.onceHandlers then 1 else 0))
    (Hno : ∀ j d2, j ∈ S0 → (beh j d2).reemit = none)
    (s : SignalState) (hsub : ∀ x ∈ s.onceHandlers, x ∈ S0)
    (hnd : s.onceHandlers.Nodup) :
    (runPassF nested beh d s).allOnce.countP (fun p => p.1 == i) ≤
      (if i ∈ s.onceHandlers then 1 else 0) := by
  have hA : (runPersistentF nested beh d s.handlers s).allOnce.countP
        (fun p => p.1 == i) +
        (if i ∈ (runPersistentF nested beh d s.handlers s).state.onceHandlers
          then 1 else 0) ≤
      (if i ∈ s.onceHandlers then 1 else 0) :=
    runPersistentF_allOnce_bound S0 i hShr hND hCB s.handlers s hsub hnd
  have hsnapnd : ((runPersistentF nested beh d
      s.handlers s).state.onceHandlers).Nodup :=
    runPersistentF_once_nodup hND s.handlers s hnd
  have hsnapsub : ∀ x ∈ (runPersistentF nested beh d
      s.handlers s).state.onceHandlers, x ∈ S0 :=
    fun x hx => hsub x (runPersistentF_once_mem hShr hx)
  have hro : (runOnceF nested beh d
      (runPersistentF nested beh d s.handlers s).state.onceHandlers
      (runPersistentF nested beh d s.handlers s).state).allOnce =
      ((runPersistentF nested beh d s.handlers s).state.onceHandlers).map
        (fun j => (j, d)) :=
    runOnceF_allOnce_of_no_reemit _ _
      (fun j hj d2 => Hno j d2 (hsnapsub j hj))
  have hB : (((runPersistentF nested beh d
      s.handlers s).state.onceHandlers).map (fun j => (j, d))).countP
        (fun p => p.1 == i) ≤
      (if i ∈ (runPersistentF nested beh d s.handlers s).state.onceHandlers
        then 1 else 0) := by
    rw [List.countP_map]
    simpa [Function.comp] using countP_le_ind_of_nodup i _ hsnapnd
  show ((runPersistentF nested beh d s.handlers s).allOnce ++
      (runOnceF nested beh d
        (runPersistentF nested beh d s.handlers s).state.onceHandlers
        (runPersistentF nested beh d s.handlers s).state).allOnce).countP
      (fun p => p.1 == i) ≤ (if i ∈ s.onceHandlers then 1 else 0)
  rw [List.countP_append, hro]
  omega

/-- The pass bound at every modelled re-entrancy depth, by induction on the
depth: a depth-`n` pass is itself a legitimate nested continuation for a
depth-`n+1` pass, because it empties the one-shot collection. -/
theorem runPassN_allOnce_bound (S0 : List Nat) (i : Nat)
    {beh : Nat → JSVal → Behavior}
    (Hno : ∀ j d2, j ∈ S0 → (beh j d2).reemit = none) :
    ∀ (fuel : Nat) (d : JSVal) (s : SignalState),
      (∀ x ∈ s.onceHandlers, x ∈ S0) → s.onceHandlers.Nodup →
      (runPassN fuel beh d s).allOnce.countP (fun p => p.1 == i) ≤
        (if i ∈ s.onceHandlers then 1 else 0) := by
  intro fuel
  induction fuel with
  | zero =>
      intro d s hsub hnd
      exact runPassF_allOnce_bound S0 i shrinking_nestedNone
        (fun d2 s2 h => h)
        (fun d2 s2 _ _ => by simp [nestedNone])
        Hno s hsub hnd
  | succ n ih =>
      intro d s hsub hnd
      exact runPassF_allOnce_bound S0 i (shrinking_runPassN n beh)
        (fun d2 s2 _ => by
          rw [runPassN_once_empty]
          exact List.nodup_nil)
        (fun d2 s2 hsub2 hnd2 => by
          rw [runPassN_once_empty]
          simpa using ih d2 s2 hsub2 hnd2)
        Hno s hsub hnd

/-- Across a whole sequence of emissions, each one-shot registration fires
at most once: the first pass consumes it (and empties the collection), and
every later pass starts from an empty one-shot collection. -/
theorem runEmits_sum_bound (S0 : List Nat) (i : Nat)
    {beh : Nat → JSVal → Behavior}
    (Hno : ∀ j d2, j ∈ S0 → (beh j d2).reemit = none) (fuel : Nat) :
    ∀ (ds : List JSVal) (s : SignalState),
      (∀ x ∈ s.onceHandlers, x ∈ S0) → s.onceHandlers.Nodup →
      (((runEmits fuel beh ds s).2).map
        (fun log => log.countP (fun p => p.1 == i))).sum ≤
      (if i ∈ s.onceHandlers then 1 else 0) := by
  intro ds
  induction ds with
  | nil => intro s _ _; simp [runEmits]
  | cons d rest ih =>
      intro s hsub hnd
      simp only [runEmits, List.map_cons, List.sum_cons]
      have h1 := runPassN_allOnce_bound S0 i Hno fuel d s hsub hnd
      have hempty := runPassN_once_empty fuel beh d s
      have h2 := ih (runPassN fuel beh d s).state
        (fun x hx => by rw [hempty] at hx; cases hx)
        (by rw [hempty]; exact List.nodup_nil)
      rw [hempty] at h2
      simp only [List.not_mem_nil, if_false] at h2
      omega

/-- C4 counterexample: a signal with the single one-shot handler `7`, whose
body synchronously re-emits on the same signal (guarding itself against
deeper recursion).  During the outer one-shot loop the handler has not yet
been deleted, so the nested pass's snapshot still contains it and it fires
a second time — two firings from a single `emit`. -/
theorem once_handler_refires_on_reentrant_emit :
    (Signal.emit 1 (fun _ d => ⟨[], some d, Outcome.ret⟩) (JSVal.num 0)
        ⟨[], [7], []⟩).allOnce = [(7, JSVal.num 0), (7, JSVal.num 0)] := by
  decide

/-- C4 (amended): provided no handler of the one-shot collection
synchronously re-emits on the same signal, a handler registered via `once`
fires at most once over any sequence of emissions (the handler pass is
shared by `emit` and `emitAsync`) — persistent handlers may unsubscribe,
throw and re-emit freely, since their nested passes run before the outer
one-shot snapshot is taken — and it is removed from the one-shot
collection by the end of the pass that invoked it, whether it returned
normally or threw.  A one-shot handler can fire twice when it is still in
an already-taken snapshot while a one-shot handler's synchronous
re-emission (its own or an earlier one's) fires it a first time, because
removal only happens after an invocation returns. -/
theorem once_fires_at_most_once_without_reentry (fuel : Nat)
    (beh : Nat → JSVal → Behavior) (ds : List JSVal) (s : SignalState)
    (i : Nat) (hre : ∀ j d2, j ∈ s.onceHandlers → (beh j d2).reemit = none)
    (hnd : s.onceHandlers.Nodup) :
    (((runEmits fuel beh ds s).2).map
        (fun log => log.countP (fun p => p.1 == i))).sum ≤ 1 ∧
      ∀ (d : JSVal) (p : Nat × JSVal),
        p ∈ (Signal.emit fuel beh d s).invokedOnce →
          p.1 ∉ (Signal.emit fuel beh d s).state.onceHandlers := by
  constructor
  · have h := runEmits_sum_bound s.onceHandlers i
      (fun j d2 hj => hre j d2 hj) fuel ds s (fun x hx => hx) hnd
    refine le_trans h ?_
    by_cases hi : i ∈ s.onceHandlers
    · rw [if_pos hi]
    · rw [if_neg hi]
      omega
  · intro d p hp
    obtain ⟨nested, hn, heq⟩ := runPassN_exists_nested fuel beh
    rw [Signal.emit, heq] at hp ⊢
    simp only [runPassF] at hp ⊢
    rw [runOnceF_invoked] at hp
    obtain ⟨x, hx, rfl⟩ := List.mem_map.mp hp
    exact runOnceF_removes hn _ _ x hx

/-- C4 witness: one one-shot handler `6`, a persistent handler `0` that
*does* synchronously re-emit, and two successive emissions — handler `6`
(delivered by the nested pass of `0`'s re-emission) still fires at most
once across the whole sequence. -/
theorem once_fires_at_most_once_without_reentry_witness :
    (((runEmits 1
        (fun j d => if j = 0 then Behavior.mk [] (some d) Outcome.ret
          else Behavior.mk [] none Outcome.ret)
        [JSVal.num 1, JSVal.num 2] ⟨[0], [6], []⟩).2).map
        (fun log => log.countP (fun p => p.1 == 6))).sum ≤ 1 :=
  (once_fires_at_most_once_without_reentry 1
      (fun j d => if j = 0 then Behavior.mk [] (some d) Outcome.ret
        else Behavior.mk [] none Outcome.ret)
      [JSVal.num 1, JSVal.num 2] ⟨[0], [6], []⟩ 6
      (fun j d2 hj => by
        have hj6 : j = 6 := by simpa using hj
        subst hj6
        rfl)
      (by decide)).1

/-! ### C5: mid-pass unsubscription -/

/-- A handler that is not in the live `#handlers` set when the persistent
loop starts (and can never re-enter it) is not invoked by that loop. -/
theorem runPersistentF_invoked_ne {nested : JSVal → SignalState → PassResult}
    (hn : Shrinking nested) {beh : Nat → JSVal → Behavior} {d : JSVal}
    {j : Nat} :
    ∀ (l : List Nat) (s : SignalState), j ∉ s.handlers →
      ∀ p ∈ (runPersistentF nested beh d l s).invoked, p.1 ≠ j := by
  intro l
  induction l with
  | nil => intro s _ p hp; cases hp
  | cons i rest ih =>
      intro s hj p hp
      by_cases hm : i ∈ s.handlers
      · rw [runPersistentF, if_pos hm] at hp
        replace hp : p ∈ (i, d) :: (runPersistentF nested beh d rest
            (invokeNested nested (beh i d) s).1).invoked := hp
        rcases List.mem_cons.mp hp with rfl | h2
        · intro hij
          exact hj (hij ▸ hm)
        · exact ih _ (fun hmem => hj (invokeNested_handlers_mem hn hmem)) p h2
      · rw [runPersistentF, if_neg hm] at hp
        exact ih _ hj p hp

theorem applyActs_removePersistent {j : Nat} :
    ∀ (acts : List Unsub) (s : SignalState),
      Unsub.removePersistent j ∈ acts → j ∉ (applyActs s acts).handlers := by
  intro acts
  induction acts with
  | nil => intro s h; cases h
  | cons a rest ih =>
      intro s h
      rcases List.mem_cons.mp h with rfl | h2
      · intro hmem
        have h4 : j ∈ (applyAction s (Unsub.removePersistent j)).handlers :=
          applyActs_handlers_mem hmem
        simp [applyAction, List.mem_filter] at h4
      · exact ih _ h2

theorem applyActs_removeOnce {j : Nat} :
    ∀ (acts : List Unsub) (s : SignalState),
      Unsub.removeOnce j ∈ acts → j ∉ (applyActs s acts).onceHandlers := by
  intro acts
  induction acts with
  | nil => intro s h; cases h
  | cons a rest ih =>
      intro s h
      rcases List.mem_cons.mp h with rfl | h2
      · intro hmem
        have h4 : j ∈ (applyAction s (Unsub.removeOnce j)).onceHandlers :=
          applyActs_once_mem hmem
        simp [applyAction, List.mem_filter] at h4
      · exact ih _ h2

theorem invokeNested_removePersistent {nested : JSVal → SignalState → PassResult}
    (hn : Shrinking nested) {b : Behavior} {s : SignalState} {j : Nat}
    (h : Unsub.removePersistent j ∈ b.acts) :
    j ∉ (invokeNested nested b s).1.handlers := by
  cases hr : b.reemit with
  | none =>
      rw [invokeNested, hr]
      exact applyActs_removePersistent _ _ h
  | some d =>
      rw [invokeNested, hr]
      intro hmem
      exact applyActs_removePersistent _ _ h ((hn d _).1 j hmem)

theorem invokeNested_removeOnce {nested : JSVal → SignalState → PassResult}
    (hn : Shrinking nested) {b : Behavior} {s : SignalState} {j : Nat}
    (h : Unsub.removeOnce j ∈ b.acts) :
    j ∉ (invokeNested nested b s).1.onceHandlers := by
  cases hr : b.reemit with
  | none =>
      rw [invokeNested, hr]
      exact applyActs_removeOnce _ _ h
  | some d =>
      rw [invokeNested, hr]
      intro hmem
      exact applyActs_removeOnce _ _ h ((hn d _).2 j hmem)

/-- If handler `i`'s body invokes the cleanup of persistent handler `j`,
then no invocation after `i`'s in the persistent loop is an invocation of
`j`: the live `Set` iteration skips deleted members, and nothing re-adds
them. -/
theorem runPersistentF_subsequent {nested : JSVal → SignalState → PassResult}
    (hn : Shrinking nested) {beh : Nat → JSVal → Behavior} {d : JSVal}
    {i j : Nat} (hact : Unsub.removePersistent j ∈ (beh i d).acts) :
    ∀ (l : List Nat) (s : SignalState) (pre post : List (Nat × JSVal)),
      (runPersistentF nested beh d l s).invoked = pre ++ (i, d) :: post →
        ∀ p ∈ post, p.1 ≠ j := by
  intro l
  induction l with
  | nil =>
      intro s pre post h p hp
      replace h : ([] : List (Nat × JSVal)) = pre ++ (i, d) :: post := h
      exact absurd ((List.append_eq_nil.mp h.symm).2) (List.cons_ne_nil _ _)
  | cons i2 rest ih =>
      intro s pre post h p hp
      by_cases hm : i2 ∈ s.handlers
      · rw [runPersistentF, if_pos hm] at h
        replace h : (i2, d) :: (runPersistentF nested beh d rest
            (invokeNested nested (beh i2 d) s).1).invoked =
            pre ++ (i, d) :: post := h
        cases pre with
        | nil =>
            rw [List.nil_append] at h
            injection h with h1 h2
            injection h1 with h1a h1b
            subst h1a
            have hj : j ∉ (invokeNested nested (beh i2 d) s).1.handlers :=
              invokeNested_removePersistent hn hact
            exact runPersistentF_invoked_ne hn rest _ hj p (h2 ▸ hp)
        | cons q pre2 =>
            rw [List.cons_append] at h
            injection h with _ h2
            exact ih _ pre2 post h2 p hp
      · rw [runPersistentF, if_neg hm] at h
        exact ih _ pre post h p hp

/-- If handler `i` is invoked during the persistent loop and its body
invokes the cleanup of one-shot handler `j`, then `j` is no longer in
`#onceHandlers` when the loop ends — in particular `j` is not in the
snapshot the one-shot loop will take. -/
theorem runPersistentF_removesOnce {nested : JSVal → SignalState → PassResult}
    (hn : Shrinking nested) {beh : Nat → JSVal → Behavior} {d : JSVal}
    {i j : Nat} (hact : Unsub.removeOnce j ∈ (beh i d).acts) :
    ∀ (l : List Nat) (s : SignalState),
      (i, d) ∈ (runPersistentF nested beh d l s).invoked →
        j ∉ (runPersistentF nested beh d l s).state.onceHandlers := by
  intro l
  induction l with
  | nil => intro s hp; cases hp
  | cons i2 rest ih =>
      intro s hp hmem
      by_cases hm : i2 ∈ s.handlers
      · rw [runPersistentF, if_pos hm] at hp hmem
        replace hp : (i, d) ∈ (i2, d) :: (runPersistentF nested beh d rest
            (invokeNested nested (beh i2 d) s).1).invoked := hp
        replace hmem : j ∈ (runPersistentF nested beh d rest
            (invokeNested nested (beh i2 d) s).1).state.onceHandlers := hmem
        rcases List.mem_cons.mp hp with heq | h2
        · injection heq with ha _
          subst ha
          exact invokeNested_removeOnce hn hact
            (runPersistentF_once_mem hn hmem)
        · exact ih _ h2 hmem
      · rw [runPersistentF, if_neg hm] at hp hmem
        exact ih _ hp hmem

/-- C5 counterexample: one-shot handlers `1` and `2`, where handler `1`'s
body invokes the cleanup of handler `2` during the same pass.  Handler `2`
has been unsubscribed by the side effect of a handler invoked earlier in
the pass, yet it still fires, because the one-shot loop iterates the
`Array.from` snapshot taken when the loop started. -/
theorem once_snapshot_invokes_unsubscribed_handler :
    Unsub.removeOnce 2 ∈
        ((fun i _ => if i = 1
            then Behavior.mk [Unsub.removeOnce 2] none Outcome.ret
            else Behavior.mk [] none Outcome.ret) 1 (JSVal.num 0)).acts ∧
      (Signal.emit 0
          (fun i _ => if i = 1
            then Behavior.mk [Unsub.removeOnce 2] none Outcome.ret
            else Behavior.mk [] none Outcome.ret)
          (JSVal.num 0) ⟨[], [1, 2], []⟩).invokedOnce =
        [(1, JSVal.num 0), (2, JSVal.num 0)] := by
  exact ⟨by decide, by decide⟩

/-- C5 (amended): a *persistent* handler unsubscribed by the side effect of
a handler invoked earlier in the same pass is not subsequently invoked in
that pass, and a *one-shot* handler unsubscribed during the persistent
phase is not invoked in that pass either; but a one-shot handler
unsubscribed by an earlier one-shot handler of the same pass still fires,
because the one-shot phase iterates a snapshot taken when it starts. -/
theorem midpass_unsubscription_suppresses_invocation (fuel : Nat)
    (beh : Nat → JSVal → Behavior) (d : JSVal) (s : SignalState)
    (i j : Nat) :
    (Unsub.removePersistent j ∈ (beh i d).acts →
      ∀ pre post,
        (Signal.emit fuel beh d s).invokedP = pre ++ (i, d) :: post →
          ∀ p ∈ post, p.1 ≠ j) ∧
    (Unsub.removeOnce j ∈ (beh i d).acts →
      (i, d) ∈ (Signal.emit fuel beh d s).invokedP →
        ∀ p ∈ (Signal.emit fuel beh d s).invokedOnce, p.1 ≠ j) := by
  obtain ⟨nested, hn, heq⟩ := runPassN_exists_nested fuel beh
  constructor
  · intro hact pre post h p hp
    rw [Signal.emit, heq] at h
    replace h : (runPersistentF nested beh d s.handlers s).invoked =
        pre ++ (i, d) :: post := h
    exact runPersistentF_subsequent hn hact _ _ pre post h p hp
  · intro hact hinv p hp
    rw [Signal.emit, heq] at hinv hp
    replace hinv : (i, d) ∈ (runPersistentF nested beh d s.handlers s).invoked :=
      hinv
    replace hp : p ∈ (runOnceF nested beh d
        (runPersistentF nested beh d s.handlers s).state.onceHandlers
        (runPersistentF nested beh d s.handlers s).state).invoked := hp
    rw [runOnceF_invoked] at hp
    obtain ⟨x, hx, rfl⟩ := List.mem_map.mp hp
    have hj := runPersistentF_removesOnce hn hact s.handlers s hinv
    exact fun hxj => hj (hxj ▸ hx)

/-- C5 witness: handler `0` unsubscribes persistent handler `1` and
one-shot handler `5` mid-pass; the invocation that follows handler `0`'s is
not of handler `1`, and the one-shot phase does not fire handler `5`. -/
theorem midpass_unsubscription_suppresses_invocation_witness :
    (((2 : Nat), JSVal.num 0).1 ≠ 1) ∧ (((6 : Nat), JSVal.num 0).1 ≠ 5) :=
  ⟨(midpass_unsubscription_suppresses_invocation 0
      (fun i _ => if i = 0
        then Behavior.mk [Unsub.removePersistent 1, Unsub.removeOnce 5]
          none Outcome.ret
        else Behavior.mk [] none Outcome.ret)
      (JSVal.num 0) ⟨[0, 1, 2], [5, 6], []⟩ 0 1).1 (by decide)
      [] [(2, JSVal.num 0)] (by decide) (2, JSVal.num 0) (by decide),
    (midpass_unsubscription_suppresses_invocation 0
      (fun i _ => if i = 0
        then Behavior.mk [Unsub.removePersistent 1, Unsub.removeOnce 5]
          none Outcome.ret
        else Behavior.mk [] none Outcome.ret)
      (JSVal.num 0) ⟨[0, 1, 2], [5, 6], []⟩ 0 5).2 (by decide) (by decide)
      (6, JSVal.num 0) (by decide)⟩

/-! ### C6: `ObservableMap.set` / `setAsync` change detection -/

/-- C6 counterexample: an `ObservableMap` whose key `"k"` stores `NaN` and
which is asked to `set("k", NaN)` again.  The new value is the *same* value
as the stored one under identity comparison (`Object.is`), so the claim
demands a no-op, yet the code (whose guard is `oldValue !== undefined &&
oldValue === value`, with `NaN === NaN` false) mutates and emits an
`update` event. -/
theorem map_set_emits_on_identical_nan :
    jsIs JSVal.nan JSVal.nan = true ∧
      (ObservableMap.set ⟨[(JSVal.str "k", JSVal.nan)]⟩ (JSVal.str "k")
          JSVal.nan).2 =
        some ⟨EvType.update, JSVal.str "k", JSVal.nan, JSVal.nan⟩ := by
  constructor
  · rfl
  · rfl

/-- C6 (amended): `set`/`setAsync` are a no-op exactly when the raw stored
value (`undefined` when the key is absent) is defined and strictly equal
(`===`) to the new value — so a stored `undefined` never short-circuits,
`0`/`-0` do short-circuit against each other, and a stored `NaN` never
does; in every other case the backing map is mutated and exactly one event
is emitted, typed `update` when the key was present and `add` when it was
absent, carrying `oldValue` = the raw previous value (`undefined` for an
add).  `setAsync` performs the identical comparison, mutation and single
emission. -/
theorem map_set_strict_equality_characterization (s : MapState) (k v : JSVal) :
    (((mapGet s.entries k).getD JSVal.undef ≠ JSVal.undef ∧
        jsEq ((mapGet s.entries k).getD JSVal.undef) v = true) →
      ObservableMap.set s k v = (s, none)) ∧
    (((mapGet s.entries k).getD JSVal.undef = JSVal.undef ∨
        jsEq ((mapGet s.entries k).getD JSVal.undef) v = false) →
      ObservableMap.set s k v =
        (⟨mapSet s.entries k v⟩,
          some ⟨if mapHas s.entries k then EvType.update else EvType.add,
            k, v, (mapGet s.entries k).getD JSVal.undef⟩)) ∧
    ObservableMap.setAsync s k v = ObservableMap.set s k v := by
  refine ⟨?_, ?_, ?_⟩
  · rintro ⟨h1, h2⟩
    have hne : jsEq ((mapGet s.entries k).getD JSVal.undef) JSVal.undef = false := by
      cases hb : jsEq ((mapGet s.entries k).getD JSVal.undef) JSVal.undef
      · rfl
      · exact absurd ((jsEq_undef_iff _).mp hb) h1
    simp [ObservableMap.set, hne, h2]
  · intro h
    have hc : (!(jsEq ((mapGet s.entries k).getD JSVal.undef) JSVal.undef) &&
        jsEq ((mapGet s.entries k).getD JSVal.undef) v) = false := by
      rcases h with h | h
      · have : jsEq ((mapGet s.entries k).getD JSVal.undef) JSVal.undef = true :=
          (jsEq_undef_iff _).mpr h
        simp [this]
      · simp [h]
    simp [ObservableMap.set, hc]
  · rfl

/-- C6 witness: a map storing `1` under `"a"`, set to `1` again, is left
untouched and emits nothing. -/
theorem map_set_strict_equality_characterization_witness :
    ObservableMap.set ⟨[(JSVal.str "a", JSVal.num 1)]⟩ (JSVal.str "a")
        (JSVal.num 1) =
      (⟨[(JSVal.str "a", JSVal.num 1)]⟩, none) :=
  (map_set_strict_equality_characterization ⟨[(JSVal.str "a", JSVal.num 1)]⟩
      (JSVal.str "a") (JSVal.num 1)).1 (by decide)

/-! ### C7: `ObservableValue.set` identity comparator -/

/-- C7: an `ObservableValue` holding `0` that is `set(-0)` stores `-0` and
emits exactly one notification carrying `-0` (each subscriber of the owned
signal then receives it exactly once, as the third conjunct shows on a
signal with two subscribers); one holding `NaN` that is `set(NaN)` keeps
its value and emits nothing — `Object.is` distinguishes the zeros and
equates `NaN` with itself. -/
theorem value_set_identity_comparator :
    ObservableValue.set (JSVal.num 0) JSVal.negZero =
        (JSVal.negZero, some JSVal.negZero) ∧
      ObservableValue.set JSVal.nan JSVal.nan = (JSVal.nan, none) ∧
      (Signal.emit 0 (fun _ _ => ⟨[], none, Outcome.ret⟩) JSVal.negZero
          ⟨[1, 2], [], []⟩).invokedP =
        [(1, JSVal.negZero), (2, JSVal.negZero)] := by
  refine ⟨rfl, rfl, by decide⟩

/-! ### C8: `ObservableRegistry.register` on an existing key -/

/-- C8: `register` on a key that is already present throws the
presence-violation error before touching the backing map, so the state is
returned unchanged, no event is emitted, and the stored value for the key
is exactly what it was. -/
theorem registry_register_existing_key_throws (s : MapState) (k v : JSVal)
    (h : mapHas s.entries k = true) :
    ObservableRegistry.register s k v =
        ⟨s, none, some ("Already registered: " ++ jsString k)⟩ ∧
      mapGet (ObservableRegistry.register s k v).state.entries k =
        mapGet s.entries k := by
  constructor
  · simp [ObservableRegistry.register, h]
  · simp [ObservableRegistry.register, h]

/-- C8 witness: `register("k", 1)` then `register("k", 2)` throws and
leaves the stored value at `1`. -/
theorem registry_register_existing_key_throws_witness :
    ObservableRegistry.register
        (ObservableRegistry.register ⟨[]⟩ (JSVal.str "k") (JSVal.num 1)).state
        (JSVal.str "k") (JSVal.num 2) =
      ⟨⟨[(JSVal.str "k", JSVal.num 1)]⟩, none,
        some "Already registered: k"⟩ :=
  (registry_register_existing_key_throws
      (ObservableRegistry.register ⟨[]⟩ (JSVal.str "k") (JSVal.num 1)).state
      (JSVal.str "k") (JSVal.num 2) (by decide)).1

/-! ### C9: `ObservableRegistry.get` error condition -/

/-- C9 counterexample: a registry whose key `"k"` was registered with the
stored value `undefined`.  The key is present, `throwOnMissing` is `true`,
and the claim therefore demands that the stored value be returned — yet
`get` throws the presence violation, because its test is `value ===
undefined && throwErrorOnMissing`, which cannot tell a stored `undefined`
from an absent key. -/
theorem registry_get_throws_on_stored_undefined :
    mapHas
        (ObservableRegistry.register ⟨[]⟩ (JSVal.str "k")
            JSVal.undef).state.entries (JSVal.str "k") = true ∧
      ObservableRegistry.get
          (ObservableRegistry.register ⟨[]⟩ (JSVal.str "k") JSVal.undef).state
          (JSVal.str "k") true =
        Except.error "Not registered: k" := by
  exact ⟨by decide, rfl⟩

/-- C9 (amended): `get(key, throwOnMissing)` throws exactly when the raw
lookup result is `undefined` (the key is absent *or* its stored value is
`undefined`) and `throwOnMissing` is `true`; in every other case it returns
the raw lookup result (the stored value, or `undefined` when the key is
absent and `throwOnMissing` is `false`). -/
theorem registry_get_error_characterization (s : MapState) (k : JSVal)
    (b : Bool) :
    (((mapGet s.entries k).getD JSVal.undef = JSVal.undef ∧ b = true) →
      ObservableRegistry.get s k b =
        Except.error ("Not registered: " ++ jsString k)) ∧
    (¬((mapGet s.entries k).getD JSVal.undef = JSVal.undef ∧ b = true) →
      ObservableRegistry.get s k b =
        Except.ok ((mapGet s.entries k).getD JSVal.undef)) := by
  constructor
  · rintro ⟨h1, h2⟩
    have : jsEq ((mapGet s.entries k).getD JSVal.undef) JSVal.undef = true :=
      (jsEq_undef_iff _).mpr h1
    simp [ObservableRegistry.get, this, h2]
  · intro h
    have hc : (jsEq ((mapGet s.entries k).getD JSVal.undef) JSVal.undef &&
        b) = false := by
      cases hb : jsEq ((mapGet s.entries k).getD JSVal.undef) JSVal.undef
      · rfl
      · cases hbb : b
        · rfl
        · exact absurd ⟨(jsEq_undef_iff _).mp hb, hbb⟩ h
    simp [ObservableRegistry.get, hc]

/-- C9 witness: a registered key with a defined stored value is returned,
and a missing key with `throwOnMissing = false` yields `undefined`. -/
theorem registry_get_error_characterization_witness :
    ObservableRegistry.get ⟨[(JSVal.str "a", JSVal.num 5)]⟩ (JSVal.str "a")
        true = Except.ok (JSVal.num 5) ∧
      ObservableRegistry.get ⟨[]⟩ (JSVal.str "b") false =
        Except.ok JSVal.undef :=
  ⟨(registry_get_error_characterization ⟨[(JSVal.str "a", JSVal.num 5)]⟩
      (JSVal.str "a") true).2 (by decide),
    (registry_get_error_characterization ⟨[]⟩ (JSVal.str "b") false).2
      (by decide)⟩

/-! ### C10: `EventEmitter` operations on a missing event -/

/-- C10: every `EventEmitter` operation addressed to an event name with no
backing signal is a safe no-op: `on`/`onError` leave the emitter unchanged
and return the do-nothing cleanup (which `runCleanup` interprets as the
identity), `emit` invokes zero handlers and returns the emitter unchanged,
and `destroy` clears the signal table so that afterwards every event name
is in this situation.  All of these model total functions of the source —
none of the corresponding calls can throw. -/
theorem emitter_missing_event_noop (s : EEState) (ev : JSVal)
    (fn efn fuel : Nat) (beh : Nat → JSVal → Behavior) (data : JSVal)
    (h : eeLookup s ev = none) :
    EventEmitter.on s ev fn = (s, EECleanup.noop) ∧
      EventEmitter.onError s ev efn = (s, EECleanup.noop) ∧
      EventEmitter.emit fuel beh s ev data = (s, []) ∧
      (∀ t : EEState, runCleanup t EECleanup.noop = t) ∧
      (∀ ev2 : JSVal, eeLookup (EventEmitter.destroy s) ev2 = none) := by
  refine ⟨?_, ?_, ?_, fun t => rfl, fun ev2 => rfl⟩
  · simp [EventEmitter.on, h]
  · simp [EventEmitter.onError, h]
  · simp [EventEmitter.emit, h]

/-- C10 witness: an emitter declared with the single event `"a"`, addressed
at the undeclared event `"b"`. -/
theorem emitter_missing_event_noop_witness :
    EventEmitter.on [(JSVal.str "a", ⟨[], [], []⟩)] (JSVal.str "b") 3 =
      ([(JSVal.str "a", ⟨[], [], []⟩)], EECleanup.noop) :=
  (emitter_missing_event_noop [(JSVal.str "a", ⟨[], [], []⟩)] (JSVal.str "b")
      3 4 0 (fun _ _ => ⟨[], none, Outcome.ret⟩) (JSVal.num 0)
      (by decide)).1
